import Mathlib

/-!
Verification development for the LocalTailwindExtractor pipeline
(src/local_tailwind_extractor.py): a scanner that extracts Tailwind-style
component fragments from PHP/HTML project files, deduplicates them by a
structural fingerprint, classifies them into fixed categories and groups
them for a report.

The markup tree is embedded as an inductive `Node` (element / text /
comment), mirroring the parsed BeautifulSoup tree.  Element classes are
kept as the split token list that the html.parser builder produces for the
multi-valued class attribute (`none` when the attribute is absent).  The
md5 digest of `hash_element` is modeled by the structure string itself:
md5 is a deterministic function of that string, so equal structure strings
give equal digests, and the dedup index is faithfully modeled by a set of
structure strings.
-/

namespace TailwindExtract

/-- Category: the fixed closed set of classification results
(src lines 281-306). -/
inductive Category where
  | buttons | forms | headers | navbars | tables | cards
  | containersCat | grids | inputsCat | footers | sectionsCat | links | other
deriving DecidableEq

/-- Node: the parsed markup tree.  `classes` is the BeautifulSoup
multi-valued class attribute (token list; `none` when absent), `attrs`
holds the remaining attributes in document order. -/
inductive Node where
  | element (tag : String) (classes : Option (List String)) (attrs : List (String × String)) (children : List Node)
  | text (s : String)
  | comment (s : String)

mutual
/-- Structural equality test on nodes, mirroring the BeautifulSoup Tag
equality used by the `tag in significant_elements` checks (src line 339). -/
def Node.beq : Node → Node → Bool
  | .text s, .text t => s == t
  | .comment s, .comment t => s == t
  | .element t1 c1 a1 k1, .element t2 c2 a2 k2 =>
    t1 == t2 && c1 == c2 && a1 == a2 && Node.beqL k1 k2
  | _, _ => false
/-- List version of `Node.beq`. -/
def Node.beqL : List Node → List Node → Bool
  | [], [] => true
  | a :: as, b :: bs => Node.beq a b && Node.beqL as bs
  | _, _ => false
end

theorem Node.beq_iff (a : Node) : ∀ b, Node.beq a b = true ↔ a = b := by
  refine Node.rec (motive_1 := fun a => ∀ b, Node.beq a b = true ↔ a = b)
    (motive_2 := fun l => ∀ l2, Node.beqL l l2 = true ↔ l = l2) ?_ ?_ ?_ ?_ ?_ a
  · intro t c ats kids ih b
    cases b <;> simp [Node.beq]
    rw [ih]
    tauto
  · intro s b; cases b <;> simp [Node.beq]
  · intro s b; cases b <;> simp [Node.beq]
  · intro l2; cases l2 <;> simp [Node.beqL]
  · intro n l ihn ihl l2
    cases l2 <;> simp [Node.beqL]
    rw [ihn, ihl]

instance : DecidableEq Node := fun a b => decidable_of_iff _ (Node.beq_iff a b)

/-- Python whitespace class (the ASCII characters matched by str.strip,
str.split and the regex class backslash-s). -/
def pyWs (c : Char) : Bool :=
  c = ' ' || c = '\t' || c = '\n' || c = '\r' || c = '\x0b' || c = '\x0c'

/-- Python str.strip: drop leading and trailing whitespace. -/
def strTrim (s : String) : String :=
  String.mk (((s.data.dropWhile pyWs).reverse.dropWhile pyWs).reverse)

/-- Python slicing s[:n] (by code points). -/
def strTake (s : String) (n : Nat) : String := String.mk (s.data.take n)

/-- Python str.lower (ASCII letters; the class tokens of interest are ASCII). -/
def strLower (s : String) : String := String.mk (s.data.map Char.toLower)

/-- Lexicographic comparison of char lists by code point, as Python
compares strings. -/
def charListLt : List Char → List Char → Bool
  | [], [] => false
  | [], _ :: _ => true
  | _ :: _, [] => false
  | a :: as, b :: bs => a < b || (a == b && charListLt as bs)

/-- String comparison used by the `sorted` model. -/
def strLtB (a b : String) : Bool := charListLt a.data b.data

/-- Ordered insertion for the `sorted` model. -/
def insertStr (x : String) : List String → List String
  | [] => [x]
  | y :: ys => if strLtB y x then y :: insertStr x ys else x :: y :: ys

/-- Python sorted on a list of strings: ascending stable sort. -/
def sortStrs (l : List String) : List String := l.foldr insertStr []

/-- Python sep.join(list). -/
def joinSep (sep : String) : List String → String
  | [] => ""
  | [x] => x
  | x :: xs => x ++ sep ++ joinSep sep xs

/-- Occurrence test on char lists: pat occurs somewhere in the list. -/
def subAt (pat : List Char) : List Char → Bool
  | [] => pat.isEmpty
  | c :: rest => pat.isPrefixOf (c :: rest) || subAt pat rest

/-- Python substring containment `pat in s`. -/
def hasSub (s pat : String) : Bool := subAt pat.data s.data

/-- Python str.endswith. -/
def strEndsWith (s suf : String) : Bool := suf.data.isSuffixOf s.data

/-- Helper for `wsSplit`: accumulates the current token (reversed). -/
def wsSplitGo (cur : List Char) : List Char → List String
  | [] => if cur.isEmpty then [] else [String.mk cur.reverse]
  | c :: rest =>
    if pyWs c then
      if cur.isEmpty then wsSplitGo [] rest
      else String.mk cur.reverse :: wsSplitGo [] rest
    else wsSplitGo (c :: cur) rest

/-- Whitespace split dropping empty pieces: Python value.split(), used by
the html.parser tree builder for the multi-valued class attribute. -/
def wsSplit (l : List Char) : List String := wsSplitGo [] l

/-- Attribute access element.get("class", []): the class token list, with
a default of the empty list when the attribute is absent. -/
def getClassList : Node → List String
  | .element _ c _ _ => c.getD []
  | _ => []

/-- Presence of the class attribute, as matched by find_all(True, class_=True)
in the first scanner pass (src line 323). -/
def hasClassAttr : Node → Bool
  | .element _ c _ _ => c.isSome
  | _ => false

/-- The joined class string used by the scanner (src lines 325-328). -/
def classStrOf (e : Node) : String := joinSep " " (getClassList e)

/-- Name contribution of one direct child to the fingerprint: element
names that are not falsy (src line 236). -/
def kidName : Node → Option String
  | .element n _ _ _ => if n = "" then none else some n
  | _ => none

/-- Direct child element names with falsy (empty) names dropped
(src line 236). -/
def childElemNames (kids : List Node) : List String := kids.filterMap kidName

/-- Container tags whose fingerprint also records direct child tag names
(src line 234). -/
def containerTags : List String :=
  ["div", "section", "form", "nav", "header", "footer", "table"]

/-- Structural fingerprint of an element (hash_element, src lines 214-240).
Returns none for non-element nodes and for a falsy tag name.  The final
md5 digest is modeled by the structure string itself (md5 is a function,
so equal structure strings give equal digests). -/
def hash_element : Node → Option String
  | .element t cls _ kids =>
    if t = "" then none
    else
      let classStr := joinSep " " (sortStrs (cls.getD []))
      let base := t ++ ":" ++ classStr
      if containerTags.contains t then
        some (base ++ ":" ++ joinSep "," (sortStrs (childElemNames kids)))
      else some base
  | _ => none

mutual
/-- All element descendants of a node, itself included, in document order
(the order in which find_all traverses the tree). -/
def allElementsN : Node → List Node
  | .element t c a k => .element t c a k :: allElementsL k
  | _ => []
/-- All elements of a node list in document order. -/
def allElementsL : List Node → List Node
  | [] => []
  | n :: rest => allElementsN n ++ allElementsL rest
end

/-- Utility-class alternatives of the scanner regex (src line 331). -/
def twPatterns : List String :=
  ["bg-", "text-", "p-", "m-", "flex", "grid", "rounded", "shadow",
   "border", "hover:", "focus:"]

/-- Regex scan for re.search of the utility-class pattern: a hit at any
position that is the string start or follows a whitespace character. -/
def twHit : Bool → List Char → Bool
  | _, [] => false
  | atB, c :: rest =>
    (atB && twPatterns.any fun p => p.data.isPrefixOf (c :: rest)) ||
      twHit (pyWs c) rest

/-- Utility-class test on the joined class string (src line 331). -/
def twSearch (s : String) : Bool := twHit true s.data

/-- Scanner pass 1: every element carrying a class attribute whose joined
class string matches the utility-class pattern (src lines 323-333). -/
def pass1 (roots : List Node) : List Node :=
  (allElementsL roots).filter fun e => hasClassAttr e && twSearch (classStrOf e)

/-- Component-indicating tag names of the second scanner pass
(src line 336). -/
def componentTags : List String :=
  ["button", "card", "nav", "header", "footer", "form"]

/-- Tag-name membership test used by find_all with a name list. -/
def nodeNameIn (names : List String) : Node → Bool
  | .element t _ _ _ => names.contains t
  | _ => false

/-- Scanner pass 2 body for one visited tag (src lines 338-351): skip tags
already selected, then select when the component name occurs in the
lower-cased joined class string. -/
def pass2Inner (ct : String) (sig : List Node) (e : Node) : List Node :=
  if sig.contains e then sig
  else if hasSub (strLower (classStrOf e)) ct then sig ++ [e]
  else sig

/-- Scanner pass 2 for one component tag name: visit every element whose
tag is the component name, div or section, in document order. -/
def pass2Step (roots : List Node) (sig : List Node) (ct : String) : List Node :=
  ((allElementsL roots).filter (nodeNameIn [ct, "div", "section"])).foldl
    (pass2Inner ct) sig

/-- Candidate selection: pass 1 then pass 2 over each component tag name
(src lines 319-351).  The length of the result is the total_found counter. -/
def selectCandidates (roots : List Node) : List Node :=
  componentTags.foldl (pass2Step roots) (pass1 roots)

mutual
/-- Whether some element with a tag in names occurs in the node subtree,
the node itself included: the recursion behind element.find(...). -/
def findTagN (names : List String) : Node → Bool
  | .element t _ _ k => names.contains t || findTagL names k
  | _ => false
/-- Descendant search over a child list (element.find searches descendants
of the element, not the element itself). -/
def findTagL (names : List String) : List Node → Bool
  | [] => false
  | n :: rest => findTagN names n || findTagL names rest
end

mutual
/-- Number of descendant div elements of a node, itself included: the
recursion behind len(element.find_all("div")). -/
def countDivN : Node → Nat
  | .element t _ _ k => (if t = "div" then 1 else 0) + countDivL k
  | _ => 0
/-- Descendant div count over a child list. -/
def countDivL : List Node → Nat
  | [] => 0
  | n :: rest => countDivN n + countDivL rest
end

/-- Classifier (classify_element, src lines 271-306): ordered rules over
the tag name, the lower-cased joined class string and subtree searches;
the first matching rule wins.  Non-element nodes never reach the
classifier (only accepted candidates are classified); they fall to other. -/
def classify_element : Node → Category
  | .element t cls _ kids =>
    let classText := strLower (joinSep " " (cls.getD []))
    if t = "button" || hasSub classText "btn" || hasSub classText "button" then .buttons
    else if t = "form" || findTagL ["form"] kids then .forms
    else if t = "header" || hasSub classText "header" || findTagL ["h1"] kids then .headers
    else if t = "nav" || hasSub classText "nav" || hasSub classText "navbar" || hasSub classText "menu" then .navbars
    else if t = "table" || findTagL ["table"] kids then .tables
    else if hasSub classText "card" || (t = "div" && findTagL ["img"] kids && decide (1 < countDivL kids)) then .cards
    else if hasSub classText "container" || hasSub classText "wrapper" then .containersCat
    else if hasSub classText "grid" || hasSub classText "row" || hasSub classText "flex" then .grids
    else if t = "input" || t = "select" || t = "textarea" || findTagL ["input", "select", "textarea"] kids then .inputsCat
    else if t = "footer" || hasSub classText "footer" then .footers
    else if t = "section" || hasSub classText "section" then .sectionsCat
    else if t = "a" || findTagL ["a"] kids then .links
    else .other
  | _ => .other

/-- Classifier rules as worded in the specification: deterministic ordered
rule evaluation, first matching rule wins, evaluated against the tag name,
the lower-cased joined class string and subtree containment. -/
def classifySpec (tag : String) (classText : String) (kids : List Node) : Category :=
  if tag = "button" || hasSub classText "btn" || hasSub classText "button" then .buttons
  else if tag = "form" || findTagL ["form"] kids then .forms
  else if tag = "header" || hasSub classText "header" || findTagL ["h1"] kids then .headers
  else if tag = "nav" || hasSub classText "nav" || hasSub classText "navbar" || hasSub classText "menu" then .navbars
  else if tag = "table" || findTagL ["table"] kids then .tables
  else if hasSub classText "card" || (tag = "div" && findTagL ["img"] kids && decide (1 < countDivL kids)) then .cards
  else if hasSub classText "container" || hasSub classText "wrapper" then .containersCat
  else if hasSub classText "grid" || hasSub classText "row" || hasSub classText "flex" then .grids
  else if tag = "input" || tag = "select" || tag = "textarea" || findTagL ["input", "select", "textarea"] kids then .inputsCat
  else if tag = "footer" || hasSub classText "footer" then .footers
  else if tag = "section" || hasSub classText "section" then .sectionsCat
  else if tag = "a" || findTagL ["a"] kids then .links
  else .other

/-- All thirteen categories. -/
def catList : List Category :=
  [.buttons, .forms, .headers, .navbars, .tables, .cards, .containersCat,
   .grids, .inputsCat, .footers, .sectionsCat, .links, .other]

/-- Attributes retained by clean_element (src line 258). -/
def keepAttrs : List String :=
  ["class", "id", "type", "placeholder", "href", "src", "alt"]

mutual
/-- Comment removal pass of clean_element (src lines 248-249). -/
def removeComments : Node → Node
  | .element t c a k => .element t c a (removeCommentsL k)
  | n => n
/-- Comment removal over a child list. -/
def removeCommentsL : List Node → List Node
  | [] => []
  | .comment _ :: rest => removeCommentsL rest
  | n :: rest => removeComments n :: removeCommentsL rest
end

/-- Whether a child list is a single nonempty text node: the condition
under which tag.string is truthy for a script or style tag. -/
def singleNonemptyText : List Node → Bool
  | [.text s] => s ≠ ""
  | _ => false

mutual
/-- Script and style content clearing pass of clean_element
(src lines 252-254): tags with a truthy single string child get the
string set to the empty string. -/
def clearScriptStyle : Node → Node
  | .element t c a k =>
    if (t = "script" || t = "style") && singleNonemptyText k then
      .element t c a [.text ""]
    else .element t c a (clearScriptStyleL k)
  | n => n
/-- Script and style clearing over a child list. -/
def clearScriptStyleL : List Node → List Node
  | [] => []
  | n :: rest => clearScriptStyle n :: clearScriptStyleL rest
end

mutual
/-- Attribute filtering pass of clean_element (src lines 257-262): every
tag keeps only the retained attributes.  The class attribute is in the
keep list, so the classes field is untouched. -/
def filterAttrs : Node → Node
  | .element t c a k =>
    .element t c (a.filter fun p => keepAttrs.contains p.1) (filterAttrsL k)
  | n => n
/-- Attribute filtering over a child list. -/
def filterAttrsL : List Node → List Node
  | [] => []
  | n :: rest => filterAttrs n :: filterAttrsL rest
end

/-- Text node rewrite of the truncation pass (src lines 265-267): a text
node whose direct parent is not script or style and whose stripped length
exceeds 100 is replaced by its first 100 characters plus an ellipsis. -/
def truncTextContent (parentSS : Bool) (s : String) : String :=
  if !parentSS && decide (100 < (strTrim s).length) then strTake s 100 ++ "..."
  else s

mutual
/-- Truncation pass of clean_element: rewrites every text node according
to its direct parent tag. -/
def truncTexts : Node → Node
  | .element t c a k =>
    .element t c a (truncTextsL (t = "script" || t = "style") k)
  | n => n
/-- Truncation over a child list, parentSS telling whether the direct
parent is a script or style tag. -/
def truncTextsL (parentSS : Bool) : List Node → List Node
  | [] => []
  | .text s :: rest => .text (truncTextContent parentSS s) :: truncTextsL parentSS rest
  | n :: rest => truncTexts n :: truncTextsL parentSS rest
end

/-- Cleaning of an accepted element (clean_element, src lines 242-269).
The fresh BeautifulSoup(str(element)) copy is modeled by the identity on
the tree (the reparse reproduces the same tree), followed by the four
mutation passes in source order. -/
def clean_element (e : Node) : Node :=
  truncTexts (filterAttrs (clearScriptStyle (removeComments e)))

/-- RunStatistics counters (src lines 51-60). -/
structure Stats where
  files_scanned : Nat := 0
  php_files_found : Nat := 0
  php_files_executed : Nat := 0
  html_files_found : Nat := 0
  elements_found : Nat := 0
  unique_elements : Nat := 0
  duplicate_elements : Nat := 0
  execution_errors : Nat := 0
deriving DecidableEq

/-- Shared extractor state: the dedup index (element_hashes, modeled as a
list kept duplicate-free by insert-if-absent), the category groups as one
flat append-only list of (category, cleaned element, source file), and the
statistics. -/
structure GState where
  element_hashes : List String := []
  groups : List (Category × Node × String) := []
  stats : Stats := {}
deriving DecidableEq

/-- Fresh extractor state. -/
def initGState : GState := {}

/-- One iteration of the candidate processing loop (src lines 354-378),
parameterized by the cleaning function applied to an accepted element.
Non-element candidates (hash none) are skipped; a fingerprint already in
the index counts a duplicate; otherwise the fingerprint is inserted and
the cleaned element is stored under its category. -/
def dedupStepWith (cleaner : Node → Node) (src : String) (st : GState) (e : Node) : GState :=
  match hash_element e with
  | none => st
  | some h =>
    if h ∈ st.element_hashes then
      { st with stats := { st.stats with duplicate_elements := st.stats.duplicate_elements + 1 } }
    else
      { st with
        element_hashes := h :: st.element_hashes,
        groups := st.groups ++ [(classify_element e, cleaner e, src)],
        stats := { st.stats with unique_elements := st.stats.unique_elements + 1 } }

/-- The candidate processing loop with the real cleaner. -/
def dedupStep (src : String) (st : GState) (e : Node) : GState :=
  dedupStepWith clean_element src st e

/-- Outcome of the atomic check-and-insert for one candidate: none when
the candidate has no fingerprint, some true when accepted, some false
when counted as a duplicate. -/
def dedupDecision (st : GState) (e : Node) : Option Bool :=
  match hash_element e with
  | none => none
  | some h => if h ∈ st.element_hashes then some false else some true

/-- Core of extract_elements_from_html on a parsed tree (src lines
319-383), parameterized by the cleaning function: select candidates,
process each through the dedup index, then add total_found to
elements_found.  Returns (total_found, new state). -/
def extract_coreWith (cleaner : Node → Node) (roots : List Node) (src : String) (st : GState) : Nat × GState :=
  let cands := selectCandidates roots
  let st1 := cands.foldl (dedupStepWith cleaner src) st
  (cands.length,
    { st1 with stats := { st1.stats with elements_found := st1.stats.elements_found + cands.length } })

/-- Core extraction with the real cleaner. -/
def extract_core (roots : List Node) (src : String) (st : GState) : Nat × GState :=
  extract_coreWith clean_element roots src st

/-- Python exception classes relevant to the extractor. -/
inductive PyErr where
  | fileNotFoundError
  | subprocessError
  | valueError
  | otherError
deriving DecidableEq

/-- Result of a completed subprocess run: exit code, stdout, stderr. -/
structure ExecOutcome where
  code : Int
  out : String
  err : String

/-- External behavior of one unit of work: the file path, the outcome of
reading the file, the outcome of parsing a markup string (BeautifulSoup
is an external collaborator that may raise), whether the file still exists
at execution time, and the outcome of the subprocess invocation. -/
structure FileOracle where
  path : String
  readFile : Except PyErr String
  parse : String → Except PyErr (List Node)
  fileExists : Bool
  execResult : Except PyErr ExecOutcome

/-- Extractor configuration relevant to per-file processing. -/
structure Config where
  execute_php : Bool

/-- Markup extraction entry point (extract_elements_from_html, src lines
308-389): empty or blank content yields zero directly; a parse exception
is absorbed by the surrounding try and yields zero; otherwise the core
runs on the parsed tree. -/
def extract_elements_from_html (parse : String → Except PyErr (List Node))
    (st : GState) (html src : String) : Nat × GState :=
  if strTrim html = "" then (0, st)
  else
    match parse html with
    | .error _ => (0, st)
    | .ok roots => extract_core roots src st

/-- First index at which pat occurs in cs, if any. -/
def findSub (pat : List Char) : List Char → Option Nat
  | [] => if pat.isEmpty then some 0 else none
  | c :: rest =>
    if pat.isPrefixOf (c :: rest) then some 0
    else (findSub pat rest).map (· + 1)

/-- Stripping of dynamic-code regions (src line 148): the leftmost-match
scan of the php_html_pattern regex, removing each lazily closed
open-php-tag ... close-php-tag region; an unclosed opener stays in the
text (the regex alternative fails and the scan advances one character). -/
def phpStripGo (fuel : Nat) (cs : List Char) : List Char :=
  match fuel with
  | 0 => cs
  | fuel + 1 =>
    match cs with
    | [] => []
    | c :: rest =>
      if "<?php".data.isPrefixOf (c :: rest) then
        match findSub "?>".data (List.drop 5 (c :: rest)) with
        | some i => phpStripGo fuel (List.drop (5 + i + 2) (c :: rest))
        | none => c :: phpStripGo fuel rest
      else if "<?=".data.isPrefixOf (c :: rest) then
        match findSub "?>".data (List.drop 3 (c :: rest)) with
        | some i => phpStripGo fuel (List.drop (3 + i + 2) (c :: rest))
        | none => c :: phpStripGo fuel rest
      else c :: phpStripGo fuel rest

/-- Stripping with sufficient fuel: every step consumes at least one
character, so cs.length steps always finish the scan. -/
def phpStrip (cs : List Char) : List Char := phpStripGo cs.length cs

/-- Quote characters accepted by the echo pattern. -/
def isQuote (c : Char) : Bool := c = '\'' || c = '"'

/-- Lazy scan for the closing quote-semicolon of the echo pattern: at each
position, close as early as possible; otherwise the character belongs to
the captured body. -/
def scanClose : List Char → Option (List Char × List Char)
  | [] => none
  | d :: ds =>
    if isQuote d && ds.head? = some ';' then some ([], ds.drop 1)
    else (scanClose ds).map fun p => (d :: p.1, p.2)

/-- Attempt to match the php_echo_pattern regex (src line 68) at the head
of cs: echo, one or more whitespace, a quote, a nonempty lazy body, a
quote, a semicolon.  Returns the captured body and the rest after the
match. -/
def matchEcho (cs : List Char) : Option (String × List Char) :=
  if "echo".data.isPrefixOf cs then
    let after4 := cs.drop 4
    let wsLen := (after4.takeWhile pyWs).length
    if wsLen = 0 then none
    else
      match after4.drop wsLen with
      | q :: b1 :: more =>
        if isQuote q then
          match scanClose more with
          | some (body, rest) => some (String.mk (b1 :: body), rest)
          | none => none
        else none
      | _ => none
  else none

/-- The findall scan of the echo pattern: leftmost matches, continuing
after each match; fuel bounds the scan and the initial fuel cs.length is
sufficient because every step consumes at least one character. -/
def echoScan (fuel : Nat) (cs : List Char) : List String :=
  match fuel with
  | 0 => []
  | fuel + 1 =>
    match matchEcho cs with
    | some (body, rest) => body :: echoScan fuel rest
    | none =>
      match cs with
      | [] => []
      | _ :: t => echoScan fuel t

/-- All echo-literal captures of a source text (src line 151). -/
def echoMatches (s : String) : List String := echoScan s.data.length s.data

/-- Static extraction of a dynamic-page source text (src lines 147-156):
the text with php blocks stripped, a separating space, and the
space-joined echo captures. -/
def phpStaticCombine (content : String) : String :=
  String.mk (phpStrip content.data) ++ " " ++ joinSep " " (echoMatches content)

/-- Static analysis of a PHP file (extract_html_from_php_static, src lines
141-161): a read exception is absorbed and yields the empty string. -/
def extract_html_from_php_static (read : Except PyErr String) : String :=
  match read with
  | .error _ => ""
  | .ok content => phpStaticCombine content

/-- Execution of a PHP file (execute_php_file, src lines 163-212): a
missing file, a subprocess exception or a nonzero exit are absorbed,
counted in execution_errors and yield the empty string; a zero exit
counts php_files_executed and yields stdout. -/
def execute_php_file (cfg : Config) (o : FileOracle) (st : GState) : String × GState :=
  if !cfg.execute_php then ("", st)
  else if !o.fileExists then
    ("", { st with stats := { st.stats with execution_errors := st.stats.execution_errors + 1 } })
  else
    match o.execResult with
    | .ok r =>
      if r.code = 0 then
        (r.out, { st with stats := { st.stats with php_files_executed := st.stats.php_files_executed + 1 } })
      else
        ("", { st with stats := { st.stats with execution_errors := st.stats.execution_errors + 1 } })
    | .error _ =>
      ("", { st with stats := { st.stats with execution_errors := st.stats.execution_errors + 1 } })

/-- Processing of one file (process_file, src lines 391-436): PHP files go
through static extraction and optionally execution; other files are read
and extracted directly, a read exception being absorbed by the inner try.
Every failure is absorbed, so the unit always returns a state. -/
def process_file (cfg : Config) (o : FileOracle) (st : GState) : GState :=
  if strEndsWith o.path ".php" then
    let html1 := extract_html_from_php_static o.readFile
    let st1 := (extract_elements_from_html o.parse st html1 o.path).2
    if cfg.execute_php then
      let he := execute_php_file cfg o st1
      (extract_elements_from_html o.parse he.2 he.1 o.path).2
    else st1
  else
    match o.readFile with
    | .error _ => st
    | .ok content => (extract_elements_from_html o.parse st content o.path).2

/-- Sequential model of the worker pool: every submitted unit of work runs
to completion, later units seeing the state left by earlier ones. -/
def runFiles (cfg : Config) (os : List FileOracle) (st : GState) : GState :=
  os.foldl (fun s o => process_file cfg o s) st

/-- Startup failure modes of the constructor. -/
inductive InitFailure where
  | fatalExit
  | uncaughtException
deriving DecidableEq

/-- Constructor logic deciding the effective execution mode (src lines
39-41 and 76-84): a missing project directory exits fatally; when
execution is requested, a probe of the runtime executable that raises
SubprocessError or FileNotFoundError downgrades execution to disabled
with a warning; any other exception class would propagate. -/
def initExtractor (dirExists : Bool) (execReq : Bool) (probe : Except PyErr Unit) :
    Except InitFailure Bool :=
  if !dirExists then .error .fatalExit
  else if execReq then
    match probe with
    | .ok _ => .ok true
    | .error e =>
      if e = .subprocessError || e = .fileNotFoundError then .ok false
      else .error .uncaughtException
  else .ok false

/-- Void (empty-element) tags closed immediately by the html.parser tree
builder. -/
def voidTags : List String :=
  ["area", "base", "br", "col", "embed", "hr", "img", "input", "keygen",
   "link", "menuitem", "meta", "param", "source", "track", "wbr"]

/-- Modelled from the spec: the Component Scanner parses raw markup with
an external html.parser tree builder whose code is not part of this
repository.  This function scans the attributes inside a start tag, up to
and including the closing angle bracket, covering whitespace-separated
name="value" attributes with double quotes and routing the class
attribute to the split token list.  Fuel is bounded by the input length. -/
def parseAttrsGo (fuel : Nat) (cs : List Char) (cls : Option (List String))
    (ats : List (String × String)) : Option (List String) × List (String × String) × List Char :=
  match fuel with
  | 0 => (cls, ats, cs)
  | fuel + 1 =>
    match cs with
    | [] => (cls, ats, [])
    | '>' :: rest => (cls, ats, rest)
    | c :: rest =>
      if pyWs c then parseAttrsGo fuel rest cls ats
      else
        let nameCs := (c :: rest).takeWhile fun ch => ch ≠ '=' && ch ≠ '>' && !pyWs ch
        let name := String.mk nameCs
        let afterName := (c :: rest).drop nameCs.length
        match afterName with
        | '=' :: '"' :: rest2 =>
          let valCs := rest2.takeWhile (· ≠ '"')
          let rest3 := rest2.drop (valCs.length + 1)
          if name = "class" then parseAttrsGo fuel rest3 (some (wsSplit valCs)) ats
          else parseAttrsGo fuel rest3 cls (ats ++ [(name, String.mk valCs)])
        | _ => parseAttrsGo fuel afterName cls (ats ++ [(name, "")])

/-- Consumption of a close tag at the head of the input, if present. -/
def consumeClose (cs : List Char) : List Char :=
  match cs with
  | '<' :: '/' :: r => (r.dropWhile (· ≠ '>')).drop 1
  | _ => cs

/-- Modelled from the spec: the external html.parser builder (not part of
this repository) producing the node tree, as a recursive-descent parse of
a sibling sequence.  Text runs between tags become text nodes, start tags
open elements closed by the matching close tag, void tags close
immediately.  Returns the parsed siblings and the input remaining after
an enclosing close tag is reached.  Fuel bounded by the input length is
sufficient because every recursive call consumes at least one character
first. -/
def parseNodesGo (fuel : Nat) (cs : List Char) : List Node × List Char :=
  match fuel with
  | 0 => ([], cs)
  | fuel + 1 =>
    match cs with
    | [] => ([], [])
    | '<' :: '/' :: rest => ([], '<' :: '/' :: rest)
    | '<' :: c :: rest =>
      if c.isAlpha then
        let nameCs := (c :: rest).takeWhile Char.isAlphanum
        let name := String.mk nameCs
        let afterName := (c :: rest).drop nameCs.length
        let att := parseAttrsGo afterName.length afterName none []
        if voidTags.contains name then
          let sibs := parseNodesGo fuel att.2.2
          (.element name att.1 att.2.1 [] :: sibs.1, sibs.2)
        else
          let kids := parseNodesGo fuel att.2.2
          let rest2 := consumeClose kids.2
          let sibs := parseNodesGo fuel rest2
          (.element name att.1 att.2.1 kids.1 :: sibs.1, sibs.2)
      else
        let t := (c :: rest).takeWhile (· ≠ '<')
        let sibs := parseNodesGo fuel ((c :: rest).drop t.length)
        (.text (String.mk ('<' :: t)) :: sibs.1, sibs.2)
    | cs =>
      let t := cs.takeWhile (· ≠ '<')
      let sibs := parseNodesGo fuel (cs.drop t.length)
      (.text (String.mk t) :: sibs.1, sibs.2)

/-- Modelled from the spec: the parse of a raw markup string into the
top-level node list, standing for the external BeautifulSoup call. -/
def parseHtml (s : String) : List Node := (parseNodesGo (s.data.length + 1) s.data).1

/-- Scenario B source text: a dynamic-page file whose content is a single
echo statement. -/
def scenarioBContent : String :=
  "echo '<div class=\"card p-4\"><img src=\"a.png\"><div></div></div>';"

/-- Scenario B unit of work: the file reads fine, markup parses with the
parser model, and execution mode is disabled so the execution fields are
never consulted. -/
def scenarioBOracle : FileOracle :=
  { path := "scenario_b.php"
    readFile := .ok scenarioBContent
    parse := fun s => .ok (parseHtml s)
    fileExists := true
    execResult := .error .subprocessError }

/-- The outer div of Scenario B (also its own cleaned form: it carries
only retained attributes and no text or comments). -/
def scenarioBDiv : Node :=
  .element "div" (some ["card", "p-4"]) []
    [.element "img" none [("src", "a.png")] [], .element "div" none [] []]

/-- Failing unit of work used by the witness of claim C5: read raises,
parse raises and the subprocess raises. -/
def badOracle : FileOracle :=
  { path := "bad.php"
    readFile := .error .otherError
    parse := fun _ => .error .valueError
    fileExists := false
    execResult := .error .subprocessError }

/-- Text-and-attribute variation: e2 differs from e1 only in the content
of text nodes and in attributes other than class, anywhere in the
subtree; tag names, class attributes, comments and the tree shape are
unchanged. -/
inductive TAVar : Node → Node → Prop where
  | text (s t : String) : TAVar (.text s) (.text t)
  | comment (s : String) : TAVar (.comment s) (.comment s)
  | elem (tag : String) (cls : Option (List String))
      (a1 a2 : List (String × String)) (k1 k2 : List Node) :
      List.Forall₂ TAVar k1 k2 →
      TAVar (.element tag cls a1 k1) (.element tag cls a2 k2)

/-- Element test. -/
def isElem : Node → Bool
  | .element _ _ _ _ => true
  | _ => false

/-- Well-formed parse output: every element in the tree carries a
nonempty tag name, as every BeautifulSoup Tag does. -/
def wfRoots (roots : List Node) : Bool :=
  (allElementsL roots).all fun e =>
    match e with
    | .element t _ _ _ => t != ""
    | _ => true

/-- Statistics consistency invariant: unique_elements equals the size of
the fingerprint index and the total number of stored elements. -/
def GInv (st : GState) : Prop :=
  st.stats.unique_elements = st.element_hashes.length ∧
    st.element_hashes.Nodup ∧
    st.groups.length = st.stats.unique_elements

/-- Agreement of two states on the behavior-relevant shared state (the
dedup index and the stored groups); statistics do not feed back into
processing. -/
def SameCore (s1 s2 : GState) : Prop :=
  s1.element_hashes = s2.element_hashes ∧ s1.groups = s2.groups

/-- Failure of the execution attempt for a unit of work: the file is
gone, the subprocess raises, or it exits nonzero. -/
def execFails (o : FileOracle) : Prop :=
  o.fileExists = false ∨ (∃ e, o.execResult = .error e) ∨
    ∃ r, o.execResult = .ok r ∧ r.code ≠ 0

/-- Category and source file of each stored group entry, forgetting the
stored element payload. -/
def groupsShape (g : List (Category × Node × String)) : List (Category × String) :=
  g.map fun x => (x.1, x.2.2)

/-- A text of 101 characters whose stripped length is 1: one letter
followed by one hundred blanks. -/
def padText : String := String.mk ('a' :: List.replicate 100 ' ')

/-- A text of 101 identical letters. -/
def longText : String := String.mk (List.replicate 101 'a')

theorem mem_hashes_dedupStepWith (cl : Node → Node) (src : String) (st : GState)
    (e : Node) (h : String) (hm : h ∈ st.element_hashes) :
    h ∈ (dedupStepWith cl src st e).element_hashes := by
  unfold dedupStepWith
  cases hash_element e with
  | none => exact hm
  | some h2 =>
    by_cases hin : h2 ∈ st.element_hashes
    · simp [hin, hm]
    · simp [hin]
      right
      exact hm

theorem hash_mem_dedupStepWith (cl : Node → Node) (src : String) (st : GState)
    (e : Node) (h : String) (he : hash_element e = some h) :
    h ∈ (dedupStepWith cl src st e).element_hashes := by
  unfold dedupStepWith
  rw [he]
  by_cases hin : h ∈ st.element_hashes
  · simp [hin]
  · simp [hin]

theorem mem_hashes_foldl_dedup (cl : Node → Node) (src : String) (h : String) :
    ∀ (l : List Node) (st : GState), h ∈ st.element_hashes →
      h ∈ (l.foldl (dedupStepWith cl src) st).element_hashes := by
  intro l
  induction l with
  | nil => intro st hm; exact hm
  | cons e rest ih =>
    intro st hm
    exact ih _ (mem_hashes_dedupStepWith cl src st e h hm)

theorem dedupStepWith_dup (cl : Node → Node) (src : String) (st : GState)
    (e : Node) (h : String) (he : hash_element e = some h)
    (hin : h ∈ st.element_hashes) :
    dedupStepWith cl src st e =
      { st with stats := { st.stats with duplicate_elements := st.stats.duplicate_elements + 1 } } := by
  unfold dedupStepWith
  rw [he]
  simp [hin]

theorem hash_element_of_tag (t : String) (c : Option (List String))
    (a : List (String × String)) (k : List Node) (ht : t ≠ "") :
    hash_element (.element t c a k) =
      some (if containerTags.contains t then
              t ++ ":" ++ joinSep " " (sortStrs (c.getD [])) ++ ":" ++
                joinSep "," (sortStrs (childElemNames k))
            else t ++ ":" ++ joinSep " " (sortStrs (c.getD []))) := by
  unfold hash_element
  simp [ht]
  split <;> simp

/-- Claim C1: two candidate element nodes with equal tag name, equal
sorted class sets and, for a container tag, equal sorted direct child tag
name sets receive equal fingerprints; consequently, whenever the first of
them has been processed by the dedup loop, processing the second (after
any interleaved candidates, from any starting state) always takes the
duplicate branch, so at most one of the two is ever accepted into the
index and the other is counted as a duplicate. -/
theorem claim_C1_dedup (t : String) (c1 c2 : Option (List String))
    (a1 a2 : List (String × String)) (k1 k2 : List Node) (src : String)
    (ht : t ≠ "")
    (hc : sortStrs (c1.getD []) = sortStrs (c2.getD []))
    (hk : containerTags.contains t = true →
      sortStrs (childElemNames k1) = sortStrs (childElemNames k2)) :
    hash_element (.element t c1 a1 k1) = hash_element (.element t c2 a2 k2) ∧
    ∀ (st : GState) (pre mid : List Node),
      dedupStep src
          (mid.foldl (dedupStep src)
            (dedupStep src (pre.foldl (dedupStep src) st) (.element t c1 a1 k1)))
          (.element t c2 a2 k2) =
        { mid.foldl (dedupStep src)
            (dedupStep src (pre.foldl (dedupStep src) st) (.element t c1 a1 k1)) with
          stats := { (mid.foldl (dedupStep src)
            (dedupStep src (pre.foldl (dedupStep src) st) (.element t c1 a1 k1))).stats with
            duplicate_elements := (mid.foldl (dedupStep src)
              (dedupStep src (pre.foldl (dedupStep src) st) (.element t c1 a1 k1))).stats.duplicate_elements + 1 } } := by
  have h1 := hash_element_of_tag t c1 a1 k1 ht
  have h2 := hash_element_of_tag t c2 a2 k2 ht
  have heq : hash_element (.element t c1 a1 k1) = hash_element (.element t c2 a2 k2) := by
    rw [h1, h2, hc]
    by_cases hct : containerTags.contains t = true
    · rw [hk hct]
    · rw [if_neg hct, if_neg hct]
  refine ⟨heq, ?_⟩
  intro st pre mid
  have hmemB : ∀ h, hash_element (.element t c1 a1 k1) = some h →
      h ∈ (dedupStep src (pre.foldl (dedupStep src) st) (.element t c1 a1 k1)).element_hashes := by
    intro h hh
    exact hash_mem_dedupStepWith clean_element src _ _ h hh
  rcases hx : hash_element (.element t c1 a1 k1) with _ | h
  · rw [hx] at h1; cases h1
  · have hmemC : h ∈ (mid.foldl (dedupStep src)
        (dedupStep src (pre.foldl (dedupStep src) st) (.element t c1 a1 k1))).element_hashes := by
      apply mem_hashes_foldl_dedup
      exact hmemB h hx
    exact dedupStepWith_dup clean_element src _ _ h (heq ▸ hx) hmemC

/-- Witness for claim C1 at a concrete instance: a div whose class list
is a permutation of the other and whose other attributes, text children
and comment children differ, processed directly one after the other from
the fresh state. -/
theorem claim_C1_dedup_witness :
    hash_element (.element "div" (some ["b", "a"]) [("x", "1")] [.text "hi"]) =
      hash_element (.element "div" (some ["a", "b"]) [] [.comment "c"]) ∧
    dedupStep "f"
        (dedupStep "f" initGState
          (.element "div" (some ["b", "a"]) [("x", "1")] [.text "hi"]))
        (.element "div" (some ["a", "b"]) [] [.comment "c"]) =
      { dedupStep "f" initGState
          (.element "div" (some ["b", "a"]) [("x", "1")] [.text "hi"]) with
        stats := { (dedupStep "f" initGState
            (.element "div" (some ["b", "a"]) [("x", "1")] [.text "hi"])).stats with
          duplicate_elements := (dedupStep "f" initGState
            (.element "div" (some ["b", "a"]) [("x", "1")] [.text "hi"])).stats.duplicate_elements + 1 } } := by
  have h := claim_C1_dedup "div" (some ["b", "a"]) (some ["a", "b"])
    [("x", "1")] [] [.text "hi"] [.comment "c"] "f"
    (by decide) (by decide) (fun _ => by decide)
  exact ⟨h.1, h.2 initGState [] []⟩

theorem tavar_kidName {a b : Node} (h : TAVar a b) : kidName a = kidName b := by
  cases h <;> rfl

theorem forall2_childElemNames {k1 k2 : List Node}
    (h : List.Forall₂ TAVar k1 k2) : childElemNames k1 = childElemNames k2 := by
  induction h with
  | nil => rfl
  | cons hx _ ih =>
    unfold childElemNames at ih ⊢
    rw [List.filterMap_cons, List.filterMap_cons, tavar_kidName hx, ih]

/-- Claim C4: fingerprint purity.  Changing only text content or
attributes other than class, anywhere in a candidate node, never changes
the fingerprint computed for it, and therefore never changes its dedup
outcome against any state of the index. -/
theorem claim_C4_purity (e1 e2 : Node) (h : TAVar e1 e2) :
    hash_element e1 = hash_element e2 ∧
    ∀ st : GState, dedupDecision st e1 = dedupDecision st e2 := by
  have hh : hash_element e1 = hash_element e2 := by
    cases h with
    | text s t => rfl
    | comment s => rfl
    | elem tag cls a1 a2 k1 k2 hk =>
      simp only [hash_element]
      rw [forall2_childElemNames hk]
  exact ⟨hh, fun st => by unfold dedupDecision; rw [hh]⟩

/-- Witness for claim C4 at a concrete instance: a paragraph whose text
child changed and whose non-class attribute was dropped keeps its
fingerprint and its dedup outcome against the fresh state. -/
theorem claim_C4_purity_witness :
    hash_element (.element "p" (some ["x"]) [("title", "1")] [.text "old"]) =
      hash_element (.element "p" (some ["x"]) [] [.text "new"]) ∧
    dedupDecision initGState (.element "p" (some ["x"]) [("title", "1")] [.text "old"]) =
      dedupDecision initGState (.element "p" (some ["x"]) [] [.text "new"]) := by
  have h := claim_C4_purity
    (.element "p" (some ["x"]) [("title", "1")] [.text "old"])
    (.element "p" (some ["x"]) [] [.text "new"])
    (TAVar.elem "p" (some ["x"]) [("title", "1")] [] [.text "old"] [.text "new"]
      (List.Forall₂.cons (TAVar.text "old" "new") List.Forall₂.nil))
  exact ⟨h.1, h.2 initGState⟩

theorem mem_catList (c : Category) : c ∈ catList := by
  cases c <;> simp [catList]

/-- Claim C3: the classifier is a total deterministic function.  On every
element node it returns the value of the ordered thirteen-rule evaluation
of the specification applied to the tag name and the lower-cased joined
class string, with the first matching rule winning and the final rule
defaulting to other, and the result always lies in the fixed closed
category set. -/
theorem claim_C3_classifier (t : String) (cls : Option (List String))
    (ats : List (String × String)) (kids : List Node) :
    classify_element (.element t cls ats kids) =
      classifySpec t (strLower (joinSep " " (cls.getD []))) kids ∧
    classify_element (.element t cls ats kids) ∈ catList :=
  ⟨rfl, mem_catList _⟩

theorem node_contains_iff (l : List Node) (e : Node) : l.contains e = true ↔ e ∈ l := by
  simp [List.contains, List.elem_iff]

theorem mem_pass2Inner (ct : String) (sig : List Node) (e x : Node) :
    x ∈ pass2Inner ct sig e ↔
      x ∈ sig ∨ (x = e ∧ hasSub (strLower (classStrOf e)) ct = true) := by
  unfold pass2Inner
  by_cases hc : sig.contains e = true
  · rw [if_pos hc]
    have he : e ∈ sig := (node_contains_iff sig e).mp hc
    constructor
    · exact fun h => Or.inl h
    · rintro (h | ⟨rfl, _⟩)
      · exact h
      · exact he
  · rw [if_neg hc]
    by_cases hs : hasSub (strLower (classStrOf e)) ct = true
    · rw [if_pos hs]
      simp only [List.mem_append, List.mem_singleton]
      constructor
      · rintro (h | rfl)
        · exact Or.inl h
        · exact Or.inr ⟨rfl, hs⟩
      · rintro (h | ⟨rfl, _⟩)
        · exact Or.inl h
        · exact Or.inr rfl
    · rw [if_neg hs]
      constructor
      · exact fun h => Or.inl h
      · rintro (h | ⟨rfl, hx⟩)
        · exact h
        · exact absurd hx hs

theorem mem_foldl_pass2Inner (ct : String) :
    ∀ (l : List Node) (sig : List Node) (x : Node),
      x ∈ l.foldl (pass2Inner ct) sig ↔
        x ∈ sig ∨ (x ∈ l ∧ hasSub (strLower (classStrOf x)) ct = true) := by
  intro l
  induction l with
  | nil => intro sig x; simp
  | cons e rest ih =>
    intro sig x
    rw [List.foldl_cons, ih, mem_pass2Inner]
    constructor
    · rintro ((h | ⟨rfl, hs⟩) | ⟨hm, hs⟩)
      · exact Or.inl h
      · exact Or.inr ⟨List.mem_cons_self _ _, hs⟩
      · exact Or.inr ⟨List.mem_cons_of_mem _ hm, hs⟩
    · rintro (h | ⟨hm, hs⟩)
      · exact Or.inl (Or.inl h)
      · rcases List.mem_cons.mp hm with rfl | hm2
        · exact Or.inl (Or.inr ⟨rfl, hs⟩)
        · exact Or.inr ⟨hm2, hs⟩

theorem mem_pass2Step (roots : List Node) (sig : List Node) (ct : String) (x : Node) :
    x ∈ pass2Step roots sig ct ↔
      x ∈ sig ∨ (x ∈ allElementsL roots ∧ nodeNameIn [ct, "div", "section"] x = true ∧
        hasSub (strLower (classStrOf x)) ct = true) := by
  unfold pass2Step
  rw [mem_foldl_pass2Inner, List.mem_filter]
  tauto

theorem mem_foldl_pass2Step (roots : List Node) :
    ∀ (cts : List String) (sig : List Node) (x : Node),
      x ∈ cts.foldl (pass2Step roots) sig ↔
        x ∈ sig ∨ ∃ ct ∈ cts, x ∈ allElementsL roots ∧
          nodeNameIn [ct, "div", "section"] x = true ∧
          hasSub (strLower (classStrOf x)) ct = true := by
  intro cts
  induction cts with
  | nil => intro sig x; simp
  | cons ct rest ih =>
    intro sig x
    rw [List.foldl_cons, ih, mem_pass2Step]
    constructor
    · rintro ((h | h) | ⟨c, hc, hrest⟩)
      · exact Or.inl h
      · exact Or.inr ⟨ct, List.mem_cons_self _ _, h⟩
      · exact Or.inr ⟨c, List.mem_cons_of_mem _ hc, hrest⟩
    · rintro (h | ⟨c, hc, hrest⟩)
      · exact Or.inl (Or.inl h)
      · rcases List.mem_cons.mp hc with rfl | hc2
        · exact Or.inl (Or.inr hrest)
        · exact Or.inr ⟨c, hc2, hrest⟩

theorem mem_pass1 (roots : List Node) (x : Node) :
    x ∈ pass1 roots ↔
      x ∈ allElementsL roots ∧ (hasClassAttr x && twSearch (classStrOf x)) = true :=
  List.mem_filter

theorem mem_selectCandidates (roots : List Node) (x : Node) :
    x ∈ selectCandidates roots ↔
      x ∈ allElementsL roots ∧
        ((hasClassAttr x && twSearch (classStrOf x)) = true ∨
          ∃ ct ∈ componentTags, nodeNameIn [ct, "div", "section"] x = true ∧
            hasSub (strLower (classStrOf x)) ct = true) := by
  unfold selectCandidates
  rw [mem_foldl_pass2Step, mem_pass1]
  tauto

/-- Counterexample to claim C2 as stated: a parsed button element with no
class attribute is not selected by the scanner, although its tag is one
of the component-indicating names and the claim says every node with such
a tag is selected even when its class is empty. -/
theorem claim_C2_counterexample :
    Node.element "button" none [] [] ∉
      selectCandidates [Node.element "button" none [] []] := by
  decide

/-- Claim C2 as amended: in the second selection pass, a node is selected
exactly when it was selected by pass 1, or when for some
component-indicating name its tag is that name, div or section AND the
lower-cased joined class value textually contains the component name.
The tag name alone never suffices: the class containment test is applied
to every visited node, including those whose tag equals the component
name. -/
theorem claim_C2_amended (roots : List Node) (x : Node) :
    x ∈ selectCandidates roots ↔
      x ∈ allElementsL roots ∧
        ((hasClassAttr x && twSearch (classStrOf x)) = true ∨
          ∃ ct ∈ componentTags, nodeNameIn [ct, "div", "section"] x = true ∧
            hasSub (strLower (classStrOf x)) ct = true) :=
  mem_selectCandidates roots x

theorem dedupStepWith_sameCore (cl : Node → Node) (src : String) (e : Node)
    {s1 s2 : GState} (h : SameCore s1 s2) :
    SameCore (dedupStepWith cl src s1 e) (dedupStepWith cl src s2 e) := by
  obtain ⟨hh, hg⟩ := h
  rcases he : hash_element e with _ | h2
  · unfold dedupStepWith
    simp only [he]
    exact ⟨hh, hg⟩
  · unfold dedupStepWith
    simp only [he]
    by_cases hin : h2 ∈ s1.element_hashes
    · rw [if_pos hin, if_pos (hh ▸ hin)]
      exact ⟨hh, hg⟩
    · rw [if_neg hin, if_neg (hh ▸ hin)]
      exact ⟨by rw [hh], by rw [hg]⟩

theorem foldl_dedup_sameCore (cl : Node → Node) (src : String) :
    ∀ (l : List Node) {s1 s2 : GState}, SameCore s1 s2 →
      SameCore (l.foldl (dedupStepWith cl src) s1) (l.foldl (dedupStepWith cl src) s2) := by
  intro l
  induction l with
  | nil => intro s1 s2 h; exact h
  | cons e rest ih => intro s1 s2 h; exact ih (dedupStepWith_sameCore cl src e h)

theorem extract_core_sameCore (cl : Node → Node) (roots : List Node) (src : String)
    {s1 s2 : GState} (h : SameCore s1 s2) :
    (extract_coreWith cl roots src s1).1 = (extract_coreWith cl roots src s2).1 ∧
    SameCore (extract_coreWith cl roots src s1).2 (extract_coreWith cl roots src s2).2 := by
  have hf := foldl_dedup_sameCore cl src (selectCandidates roots) h
  exact ⟨rfl, ⟨hf.1, hf.2⟩⟩

theorem extract_html_sameCore (p : String → Except PyErr (List Node))
    (html src : String) {s1 s2 : GState} (h : SameCore s1 s2) :
    (extract_elements_from_html p s1 html src).1 = (extract_elements_from_html p s2 html src).1 ∧
    SameCore (extract_elements_from_html p s1 html src).2 (extract_elements_from_html p s2 html src).2 := by
  unfold extract_elements_from_html
  by_cases ht : strTrim html = ""
  · rw [if_pos ht, if_pos ht]; exact ⟨rfl, h⟩
  · rw [if_neg ht, if_neg ht]
    cases p html with
    | error e => exact ⟨rfl, h⟩
    | ok roots => exact extract_core_sameCore clean_element roots src h

theorem execute_sameCore (cfg : Config) (o : FileOracle) {s1 s2 : GState}
    (h : SameCore s1 s2) :
    (execute_php_file cfg o s1).1 = (execute_php_file cfg o s2).1 ∧
    SameCore (execute_php_file cfg o s1).2 (execute_php_file cfg o s2).2 := by
  obtain ⟨hh, hg⟩ := h
  unfold execute_php_file
  by_cases hc : cfg.execute_php
  · simp only [hc]
    by_cases hf : o.fileExists
    · simp only [hf]
      cases o.execResult with
      | error e => exact ⟨rfl, hh, hg⟩
      | ok r =>
        by_cases hr : r.code = 0
        · simp [hr]; exact ⟨hh, hg⟩
        · simp [hr]; exact ⟨hh, hg⟩
    · simp only [hf]; exact ⟨rfl, hh, hg⟩
  · simp only [hc]; exact ⟨rfl, hh, hg⟩

theorem process_file_sameCore (cfg : Config) (o : FileOracle) {s1 s2 : GState}
    (h : SameCore s1 s2) :
    SameCore (process_file cfg o s1) (process_file cfg o s2) := by
  have h1 := extract_html_sameCore o.parse (extract_html_from_php_static o.readFile) o.path h
  by_cases hp : strEndsWith o.path ".php" = true
  · by_cases hc : cfg.execute_php = true
    · have h2 := execute_sameCore cfg o h1.2
      have h3 := extract_html_sameCore o.parse
        (execute_php_file cfg o (extract_elements_from_html o.parse s1
          (extract_html_from_php_static o.readFile) o.path).2).1 o.path h2.2
      simp only [process_file, hp, hc, if_true]
      rw [← h2.1]
      exact h3.2
    · have hc2 : cfg.execute_php = false := by
        revert hc; cases cfg.execute_php <;> simp
      simp only [process_file, hp, hc2, if_true, Bool.false_eq_true, if_false]
      exact h1.2
  · have hp2 : strEndsWith o.path ".php" = false := by
      revert hp; cases strEndsWith o.path ".php" <;> simp
    simp only [process_file, hp2, Bool.false_eq_true, if_false]
    cases o.readFile with
    | error e => exact h
    | ok content => exact (extract_html_sameCore o.parse content o.path h).2

theorem runFiles_sameCore (cfg : Config) :
    ∀ (os : List FileOracle) {s1 s2 : GState}, SameCore s1 s2 →
      SameCore (runFiles cfg os s1) (runFiles cfg os s2) := by
  intro os
  induction os with
  | nil => intro s1 s2 h; exact h
  | cons o rest ih =>
    intro s1 s2 h
    exact ih (process_file_sameCore cfg o h)

theorem extract_html_blank (p : String → Except PyErr (List Node))
    (st : GState) (src : String) :
    extract_elements_from_html p st "" src = (0, st) := rfl

theorem extract_html_parse_fail (p : String → Except PyErr (List Node))
    (st : GState) (html src : String) (pe : PyErr) (hp : p html = .error pe) :
    extract_elements_from_html p st html src = (0, st) := by
  unfold extract_elements_from_html
  by_cases ht : strTrim html = ""
  · rw [if_pos ht]
  · rw [if_neg ht, hp]

theorem execute_php_file_fails (cfg : Config) (o : FileOracle) (st : GState)
    (hcfg : cfg.execute_php = true) (hf : execFails o) :
    execute_php_file cfg o st =
      ("", { st with stats := { st.stats with execution_errors := st.stats.execution_errors + 1 } }) := by
  unfold execute_php_file
  rw [hcfg]
  cases hex : o.fileExists with
  | false => simp
  | true =>
    simp only [Bool.not_true, Bool.false_eq_true, if_false]
    rcases hf with hfe | ⟨e, he⟩ | ⟨r, hr, hc⟩
    · rw [hex] at hfe; cases hfe
    · rw [he]
    · rw [hr]
      simp [hc]

/-- Claim C5: failure absorption at the unit boundary.  For a unit of
work whose read raises, or whose read succeeds but whose parse raises,
and whose execution attempt (when execution mode is on) fails, processing
the unit returns normally with the dedup index, stored groups and all
statistics unchanged except execution_errors, which grows by one exactly
when the file is a PHP file and execution mode is on; moreover processing
any further files from the resulting state leaves the same dedup index
and stored groups as processing them from the original state, so the
failing unit never affects the rest of the run. -/
theorem claim_C5_absorption (cfg : Config) (o : FileOracle) (st : GState)
    (er pe : PyErr) (c : String)
    (hfail : o.readFile = .error er ∨ (o.readFile = .ok c ∧ ∀ s, o.parse s = .error pe))
    (hexec : cfg.execute_php = true → execFails o) :
    process_file cfg o st =
      { st with stats := { st.stats with execution_errors := st.stats.execution_errors +
          (if strEndsWith o.path ".php" && cfg.execute_php then 1 else 0) } } ∧
    ∀ rest, SameCore (runFiles cfg rest (process_file cfg o st)) (runFiles cfg rest st) := by
  have hst1 : (extract_elements_from_html o.parse st
      (extract_html_from_php_static o.readFile) o.path).2 = st := by
    rcases hfail with hre | ⟨hro, hpf⟩
    · simp only [extract_html_from_php_static, hre]
      rw [extract_html_blank]
    · simp only [extract_html_from_php_static, hro]
      rw [extract_html_parse_fail o.parse st _ o.path pe (hpf _)]
  have hkey : process_file cfg o st =
      { st with stats := { st.stats with execution_errors := st.stats.execution_errors +
          (if strEndsWith o.path ".php" && cfg.execute_php then 1 else 0) } } := by
    by_cases hp : strEndsWith o.path ".php" = true
    · by_cases hc : cfg.execute_php = true
      · simp only [process_file, hp, hc, if_true]
        rw [hst1, execute_php_file_fails cfg o st hc (hexec hc)]
        rw [extract_html_blank]
        simp [hp, hc]
      · have hc2 : cfg.execute_php = false := by
          revert hc; cases cfg.execute_php <;> simp
        simp only [process_file, hp, hc2, if_true, Bool.false_eq_true, if_false]
        rw [hst1]
        simp [hp, hc2]
    · have hp2 : strEndsWith o.path ".php" = false := by
        revert hp; cases strEndsWith o.path ".php" <;> simp
      rcases hfail with hre | ⟨hro, hpf⟩
      · simp only [process_file, hp2, Bool.false_eq_true, if_false, hre]
        simp
      · simp only [process_file, hp2, Bool.false_eq_true, if_false, hro]
        rw [extract_html_parse_fail o.parse st c o.path pe (hpf c)]
        simp
  refine ⟨hkey, fun rest => ?_⟩
  apply runFiles_sameCore
  rw [hkey]
  exact ⟨rfl, rfl⟩

/-- Witness for claim C5 at a concrete failing unit with execution mode
on: the state changes only by one execution error and further processing
is unaffected. -/
theorem claim_C5_absorption_witness :
    process_file ⟨true⟩ badOracle initGState =
      { initGState with stats := { initGState.stats with
          execution_errors := initGState.stats.execution_errors +
            (if strEndsWith badOracle.path ".php" && true then 1 else 0) } } ∧
    SameCore (runFiles ⟨true⟩ [] (process_file ⟨true⟩ badOracle initGState))
      (runFiles ⟨true⟩ [] initGState) := by
  have h := claim_C5_absorption ⟨true⟩ badOracle initGState .otherError .valueError ""
    (Or.inl rfl) (fun _ => Or.inl rfl)
  exact ⟨h.1, h.2 []⟩

set_option maxRecDepth 4000 in
/-- Counterexample to claim C6 as stated: for the Scenario B file the
scanner selects two candidates, not exactly one.  Static extraction keeps
the statement text (with the markup still inside the quote characters)
and appends the extracted echo literal, so the parsed document contains
two copies of the outer div and the first selection pass picks both. -/
theorem claim_C6_counterexample :
    (selectCandidates (parseHtml (phpStaticCombine scenarioBContent))).length = 2 ∧
    ¬(selectCandidates (parseHtml (phpStaticCombine scenarioBContent))).length = 1 := by
  have h : (selectCandidates (parseHtml (phpStaticCombine scenarioBContent))).length = 2 := rfl
  exact ⟨h, by omega⟩

set_option maxRecDepth 4000 in
/-- Claim C6 as amended: for the Scenario B dynamic-page file with
execution mode disabled, static extraction recovers the echoed markup
literal, the scanner selects two candidates (two copies of the outer
div), exactly one is accepted and classified into cards, one is counted
as a duplicate, and php_files_executed stays 0 (as do all counters other
than elements_found, unique_elements and duplicate_elements). -/
theorem claim_C6_amended :
    echoMatches scenarioBContent =
      ["<div class=\"card p-4\"><img src=\"a.png\"><div></div></div>"] ∧
    process_file ⟨false⟩ scenarioBOracle initGState =
      { element_hashes := ["div:card p-4:div,img"],
        groups := [(.cards, scenarioBDiv, "scenario_b.php")],
        stats := { elements_found := 2, unique_elements := 1, duplicate_elements := 1 } } :=
  ⟨rfl, rfl⟩

set_option maxRecDepth 4000 in
/-- Counterexample to claim C7 as stated: a text node of 101 characters
(one letter and one hundred blanks) is longer than 100 characters but is
left unchanged by cleaning, because the source tests the length of the
whitespace-stripped text, and the claim would require it to be replaced
by its first 100 characters plus the ellipsis marker. -/
theorem claim_C7_counterexample :
    100 < padText.length ∧
    clean_element (.element "div" none [] [.text padText]) =
      .element "div" none [] [.text padText] ∧
    padText ≠ strTake padText 100 ++ "..." := by
  refine ⟨by decide, rfl, by decide⟩

/-- Claim C7 as amended: during cleaning, a text node whose direct parent
is not a script or style tag is truncated to its first 100 characters
plus an ellipsis marker exactly when its whitespace-stripped content is
longer than 100 characters, and is left unchanged otherwise.  Stated for
a candidate with one text child and no other attributes. -/
theorem claim_C7_amended (p t : String) (hp : p ∉ (["script", "style"] : List String)) :
    clean_element (.element p none [] [.text t]) =
      .element p none []
        [.text (if 100 < (strTrim t).length then strTake t 100 ++ "..." else t)] := by
  have hps : (p = "script" || p = "style") = false := by
    simp only [List.mem_cons, List.mem_singleton, not_or] at hp
    simp [hp.1, hp.2]
  simp only [clean_element, removeComments, removeCommentsL, clearScriptStyle,
    clearScriptStyleL, hps, Bool.false_and, Bool.false_eq_true, if_false,
    filterAttrs, filterAttrsL, List.filter_nil, truncTexts, truncTextsL,
    truncTextContent, Bool.not_false, Bool.true_and]
  by_cases h100 : 100 < (strTrim t).length
  · simp [h100]
  · simp [h100]

set_option maxRecDepth 4000 in
/-- Witness for the amended claim C7 at a concrete input: a text of 101
letters under a div parent. -/
theorem claim_C7_amended_witness :
    clean_element (.element "div" none [] [.text longText]) =
      .element "div" none []
        [.text (if 100 < (strTrim longText).length then strTake longText 100 ++ "..." else longText)] :=
  claim_C7_amended "div" longText (by decide)

theorem dedupStepWith_frame (cl : Node → Node) (src : String) (st : GState) (e : Node) :
    (dedupStepWith cl src st e).stats.elements_found = st.stats.elements_found ∧
    (dedupStepWith cl src st e).stats.php_files_executed = st.stats.php_files_executed := by
  rcases he : hash_element e with _ | h
  · simp [dedupStepWith, he]
  · unfold dedupStepWith
    simp only [he]
    by_cases hin : h ∈ st.element_hashes
    · rw [if_pos hin]; exact ⟨rfl, rfl⟩
    · rw [if_neg hin]; exact ⟨rfl, rfl⟩

theorem dedup_fold_frame (cl : Node → Node) (src : String) :
    ∀ (l : List Node) (st : GState),
      (l.foldl (dedupStepWith cl src) st).stats.elements_found = st.stats.elements_found ∧
      (l.foldl (dedupStepWith cl src) st).stats.php_files_executed = st.stats.php_files_executed := by
  intro l
  induction l with
  | nil => intro st; exact ⟨rfl, rfl⟩
  | cons e rest ih =>
    intro st
    have h1 := dedupStepWith_frame cl src st e
    have h2 := ih (dedupStepWith cl src st e)
    exact ⟨h2.1.trans h1.1, h2.2.trans h1.2⟩

theorem extract_html_php_executed (p : String → Except PyErr (List Node))
    (st : GState) (html src : String) :
    (extract_elements_from_html p st html src).2.stats.php_files_executed =
      st.stats.php_files_executed := by
  unfold extract_elements_from_html
  by_cases ht : strTrim html = ""
  · rw [if_pos ht]
  · rw [if_neg ht]
    cases p html with
    | error e => rfl
    | ok roots =>
      exact (dedup_fold_frame clean_element src (selectCandidates roots) st).2

/-- Claim C8: when execution mode is requested but the probe of the
runtime executable raises FileNotFoundError (not found) or a
SubprocessError (failing invocation or timeout), startup returns normally
with execution mode disabled instead of exiting fatally, and the run then
proceeds as a static-only extraction: with execution disabled no unit of
work ever increments php_files_executed. -/
theorem claim_C8_fallback :
    initExtractor true true (.error .fileNotFoundError) = .ok false ∧
    initExtractor true true (.error .subprocessError) = .ok false ∧
    ∀ (o : FileOracle) (st : GState),
      (process_file ⟨false⟩ o st).stats.php_files_executed = st.stats.php_files_executed := by
  refine ⟨rfl, rfl, fun o st => ?_⟩
  by_cases hp : strEndsWith o.path ".php" = true
  · simp only [process_file, hp, if_true, Bool.false_eq_true, if_false]
    exact extract_html_php_executed o.parse st (extract_html_from_php_static o.readFile) o.path
  · have hp2 : strEndsWith o.path ".php" = false := by
      revert hp; cases strEndsWith o.path ".php" <;> simp
    simp only [process_file, hp2, Bool.false_eq_true, if_false]
    cases o.readFile with
    | error e => rfl
    | ok content => exact extract_html_php_executed o.parse st content o.path

theorem isElem_exists (e : Node) (h : isElem e = true) :
    ∃ t c a k, e = Node.element t c a k := by
  cases e with
  | element t c a k => exact ⟨t, c, a, k, rfl⟩
  | text s => simp [isElem] at h
  | comment s => simp [isElem] at h

theorem mem_allElementsN_isElem (n : Node) : ∀ x ∈ allElementsN n, isElem x = true := by
  refine Node.rec (motive_1 := fun n => ∀ x ∈ allElementsN n, isElem x = true)
    (motive_2 := fun l => ∀ x ∈ allElementsL l, isElem x = true) ?_ ?_ ?_ ?_ ?_ n
  · intro t c ats kids ih x hx
    simp only [allElementsN] at hx
    rcases List.mem_cons.mp hx with rfl | hx2
    · rfl
    · exact ih x hx2
  · intro s x hx; simp [allElementsN] at hx
  · intro s x hx; simp [allElementsN] at hx
  · intro x hx; simp [allElementsL] at hx
  · intro hd tl ihh iht x hx
    simp only [allElementsL, List.mem_append] at hx
    rcases hx with hx | hx
    · exact ihh x hx
    · exact iht x hx

theorem mem_allElementsL_isElem (l : List Node) : ∀ x ∈ allElementsL l, isElem x = true := by
  induction l with
  | nil => intro x hx; simp [allElementsL] at hx
  | cons n rest ih =>
    intro x hx
    simp only [allElementsL, List.mem_append] at hx
    rcases hx with hx | hx
    · exact mem_allElementsN_isElem n x hx
    · exact ih x hx

theorem hash_isSome (t : String) (c : Option (List String))
    (a : List (String × String)) (k : List Node) (ht : t ≠ "") :
    (hash_element (Node.element t c a k)).isSome = true := by
  rw [hash_element_of_tag t c a k ht]
  rfl

theorem select_hash_isSome (roots : List Node) (hwf : wfRoots roots = true) :
    ∀ e ∈ selectCandidates roots, (hash_element e).isSome = true := by
  intro e he
  have h1 := ((mem_selectCandidates roots e).mp he).1
  have h2 := mem_allElementsL_isElem roots e h1
  obtain ⟨t, c, a, k, rfl⟩ := isElem_exists e h2
  have h4 := List.all_eq_true.mp hwf _ h1
  simp only [bne_iff_ne, ne_eq] at h4
  exact hash_isSome t c a k h4

theorem dedup_fold_inv (cl : Node → Node) (src : String) :
    ∀ (l : List Node) (st : GState),
      (∀ e ∈ l, (hash_element e).isSome = true) → GInv st →
      GInv (l.foldl (dedupStepWith cl src) st) ∧
      (l.foldl (dedupStepWith cl src) st).stats.unique_elements +
          (l.foldl (dedupStepWith cl src) st).stats.duplicate_elements =
        st.stats.unique_elements + st.stats.duplicate_elements + l.length := by
  intro l
  induction l with
  | nil => intro st _ hinv; exact ⟨hinv, by simp⟩
  | cons e rest ih =>
    intro st hall hinv
    have he := hall e (List.mem_cons_self _ _)
    obtain ⟨h, hh⟩ := Option.isSome_iff_exists.mp he
    have hstep : GInv (dedupStepWith cl src st e) ∧
        (dedupStepWith cl src st e).stats.unique_elements +
          (dedupStepWith cl src st e).stats.duplicate_elements =
          st.stats.unique_elements + st.stats.duplicate_elements + 1 := by
      unfold dedupStepWith
      simp only [hh]
      by_cases hin : h ∈ st.element_hashes
      · rw [if_pos hin]
        exact ⟨⟨hinv.1, hinv.2.1, hinv.2.2⟩, by simp; omega⟩
      · rw [if_neg hin]
        refine ⟨⟨?_, ?_, ?_⟩, by simp; omega⟩
        · simp [hinv.1]
        · exact List.Nodup.cons hin hinv.2.1
        · simp [hinv.2.2]
    have hrest := ih (dedupStepWith cl src st e)
      (fun x hx => hall x (List.mem_cons_of_mem _ hx)) hstep.1
    refine ⟨hrest.1, ?_⟩
    rw [List.foldl_cons] at *
    rw [hrest.2, hstep.2]
    simp
    omega

/-- Claim C9: statistics consistency.  For any parsed document processed
without an exception (from any state satisfying the invariant), the
unique and duplicate increments sum to the elements_found increment
(every selected candidate is counted as exactly one of the two), and the
invariant that unique_elements equals the size of the fingerprint index
and the total number of stored elements is preserved. -/
theorem claim_C9_stats (roots : List Node) (src : String) (st : GState)
    (hwf : wfRoots roots = true) (hinv : GInv st) :
    (extract_core roots src st).2.stats.unique_elements +
        (extract_core roots src st).2.stats.duplicate_elements =
      st.stats.unique_elements + st.stats.duplicate_elements + (extract_core roots src st).1 ∧
    (extract_core roots src st).2.stats.elements_found =
      st.stats.elements_found + (extract_core roots src st).1 ∧
    GInv (extract_core roots src st).2 := by
  have hfold := dedup_fold_inv clean_element src (selectCandidates roots) st
    (select_hash_isSome roots hwf) hinv
  have hframe := dedup_fold_frame clean_element src (selectCandidates roots) st
  unfold extract_core extract_coreWith
  refine ⟨?_, ?_, ?_, ?_, ?_⟩
  · exact hfold.2
  · simp only []
    rw [hframe.1]
  · exact hfold.1.1
  · exact hfold.1.2.1
  · exact hfold.1.2.2

/-- Witness for claim C9 at a concrete document: one button with one
utility class processed from the fresh state. -/
theorem claim_C9_stats_witness :
    (extract_core [Node.element "button" (some ["p-4"]) [] []] "w.html" initGState).2.stats.unique_elements +
        (extract_core [Node.element "button" (some ["p-4"]) [] []] "w.html" initGState).2.stats.duplicate_elements =
      initGState.stats.unique_elements + initGState.stats.duplicate_elements +
        (extract_core [Node.element "button" (some ["p-4"]) [] []] "w.html" initGState).1 ∧
    (extract_core [Node.element "button" (some ["p-4"]) [] []] "w.html" initGState).2.stats.elements_found =
      initGState.stats.elements_found +
        (extract_core [Node.element "button" (some ["p-4"]) [] []] "w.html" initGState).1 ∧
    GInv (extract_core [Node.element "button" (some ["p-4"]) [] []] "w.html" initGState).2 :=
  claim_C9_stats [Node.element "button" (some ["p-4"]) [] []] "w.html" initGState
    (by decide) ⟨rfl, List.nodup_nil, rfl⟩

theorem dedupStepWith_shape (cl1 cl2 : Node → Node) (src : String) (e : Node)
    {s1 s2 : GState} (hh : s1.element_hashes = s2.element_hashes)
    (hs : s1.stats = s2.stats) (hg : groupsShape s1.groups = groupsShape s2.groups) :
    (dedupStepWith cl1 src s1 e).element_hashes = (dedupStepWith cl2 src s2 e).element_hashes ∧
    (dedupStepWith cl1 src s1 e).stats = (dedupStepWith cl2 src s2 e).stats ∧
    groupsShape (dedupStepWith cl1 src s1 e).groups =
      groupsShape (dedupStepWith cl2 src s2 e).groups := by
  rcases he : hash_element e with _ | h
  · unfold dedupStepWith
    simp only [he]
    exact ⟨hh, hs, hg⟩
  · unfold dedupStepWith
    simp only [he]
    by_cases hin : h ∈ s1.element_hashes
    · rw [if_pos hin, if_pos (hh ▸ hin)]
      exact ⟨hh, by rw [hs], hg⟩
    · rw [if_neg hin, if_neg (hh ▸ hin)]
      refine ⟨by rw [hh], by rw [hs], ?_⟩
      unfold groupsShape at hg ⊢
      simp only [List.map_append, hg]
      simp

theorem dedup_fold_shape (cl1 cl2 : Node → Node) (src : String) :
    ∀ (l : List Node) {s1 s2 : GState},
      s1.element_hashes = s2.element_hashes → s1.stats = s2.stats →
      groupsShape s1.groups = groupsShape s2.groups →
      (l.foldl (dedupStepWith cl1 src) s1).element_hashes =
          (l.foldl (dedupStepWith cl2 src) s2).element_hashes ∧
      (l.foldl (dedupStepWith cl1 src) s1).stats = (l.foldl (dedupStepWith cl2 src) s2).stats ∧
      groupsShape (l.foldl (dedupStepWith cl1 src) s1).groups =
        groupsShape (l.foldl (dedupStepWith cl2 src) s2).groups := by
  intro l
  induction l with
  | nil => intro s1 s2 hh hs hg; exact ⟨hh, hs, hg⟩
  | cons e rest ih =>
    intro s1 s2 hh hs hg
    have hstep := dedupStepWith_shape cl1 cl2 src e hh hs hg
    exact ih hstep.1 hstep.2.1 hstep.2.2

/-- Claim C10: cleaning does not feed back into the pipeline.  Replacing
the cleaning function by any other function (in particular by the
identity, which models not cleaning at all) leaves the candidate count,
the dedup index, every statistic, and the category and source file of
every stored element unchanged; only the stored payloads differ.  Since
clean_element is itself a pure function producing a fresh tree, every
candidate selected later fingerprints and classifies identically whether
or not an earlier candidate was cleaned. -/
theorem claim_C10_clean_frame (cleaner : Node → Node) (roots : List Node)
    (src : String) (st : GState) :
    (extract_coreWith clean_element roots src st).1 =
      (extract_coreWith cleaner roots src st).1 ∧
    (extract_coreWith clean_element roots src st).2.element_hashes =
      (extract_coreWith cleaner roots src st).2.element_hashes ∧
    (extract_coreWith clean_element roots src st).2.stats =
      (extract_coreWith cleaner roots src st).2.stats ∧
    groupsShape (extract_coreWith clean_element roots src st).2.groups =
      groupsShape (extract_coreWith cleaner roots src st).2.groups := by
  have hfold := dedup_fold_shape clean_element cleaner src (selectCandidates roots)
    (rfl : st.element_hashes = st.element_hashes) rfl rfl
  unfold extract_coreWith
  refine ⟨rfl, hfold.1, ?_, hfold.2.2⟩
  simp only []
  rw [hfold.2.1]

end TailwindExtract
